import Mathlib

/-!
Verification of the geometric reconstruction/scoring engine of
`src/database_gen.py`: point-in-polygon test (`is_in_contour`), bounded grid
builder (`create_grid`), distance-field scorer (`score_of_node`,
`calculate_score_array`), local interpolation recoverer (`place_inner_vertex`),
grid pruning (`remove_points_grid`) and the recovery loop (`compute_vertices`).

Python floats are idealised as exact rationals (`ℚ`); the square root used by
the scorer is modelled over `ℝ`.  Python / numpy sequence indexing (which
allows negative indices wrapping from the end, and raises `IndexError` out of
range) is modelled by `npGet` returning `Option`; operations that can raise
return `Option`, with `none` standing for the raised exception.
-/

set_option autoImplicit false

namespace DatabaseGen

/-- Python / numpy sequence indexing `xs[i]`: a nonnegative index must be less
than the length, a negative index `i` with `-len ≤ i` wraps to `len + i`;
anything else raises `IndexError` (modelled as `none`). -/
def npGet {α : Type} (xs : List α) (i : ℤ) : Option α :=
  if 0 ≤ i ∧ i < xs.length then xs.get? i.toNat
  else if -(xs.length : ℤ) ≤ i ∧ i < 0 then xs.get? (xs.length + i).toNat
  else none

/-- Python `del xs[i]` for a nonnegative index `i` (the source only ever
deletes at index `4`): removes the element at position `i`, raising
`IndexError` when `i` is out of range. -/
def pyDel {α : Type} (xs : List α) (i : ℕ) : Option (List α) :=
  if i < xs.length then some (xs.eraseIdx i) else none

/-- Python list comprehension `[scores[l] for l in labels]` over a numpy
array `scores`: each lookup may raise, and a raise aborts the whole
comprehension. -/
def pyMapGet (scores : List ℚ) : List ℤ → Option (List ℚ)
  | [] => some []
  | l :: rest => do
      let s ← npGet scores l
      let r ← pyMapGet scores rest
      pure (s :: r)

/-- Tail of `np.argmin`: walks the remaining entries keeping the index `bi`
and value `bv` of the first minimum seen so far, `i` being the index of the
next entry. -/
def argminAux : List ℚ → ℕ → ℚ → ℕ → ℕ
  | [], bi, _, _ => bi
  | w :: rest, bi, bv, i =>
      if w < bv then argminAux rest i w (i + 1) else argminAux rest bi bv (i + 1)

/-- Model of `np.argmin(scores)`: index of the first occurrence of the
minimal entry; raises on an empty array. -/
def argmin : List ℚ → Option ℕ
  | [] => none
  | v :: rest => some (argminAux rest 0 v 1)

/-- Recursive core of `np.delete(xs, idxs)`: keeps the elements whose running
position (starting at `i`) is not listed in `idxs`. -/
def npDeleteFrom {α : Type} (xs : List α) (idxs : List ℕ) : ℕ → List α :=
  match xs with
  | [] => fun _ => []
  | a :: rest => fun i =>
      (if idxs.contains i then [] else [a]) ++ npDeleteFrom rest idxs (i + 1)

/-- Model of `np.delete(xs, idxs)` (`axis=0`): removes the positions listed in
`idxs`, preserving the order of the survivors.  The source only calls it with
in-range indices. -/
def npDelete {α : Type} (xs : List α) (idxs : List ℕ) : List α :=
  npDeleteFrom xs idxs 0

/-- Python `int()` applied to a real number: truncation toward zero. -/
def pyInt (q : ℚ) : ℤ := if 0 ≤ q then ⌊q⌋ else ⌈q⌉

/-! ## Point-in-polygon test (`is_in_contour`, source lines 201–229) -/

/-- Vertex `coord[i]` of the contour; the traversal only uses indices below
the length, so a total default-valued lookup is faithful. -/
def vertAt (coord : List (ℚ × ℚ)) (i : ℕ) : ℚ × ℚ := coord.getD i (0, 0)

/-- Vertex `coord[j]` where `j` is the predecessor of `i` in the traversal of
`is_in_contour` (`j = num - 1` at `i = 0`, otherwise `j = i - 1`). -/
def prevAt (coord : List (ℚ × ℚ)) (i : ℕ) : ℚ × ℚ :=
  coord.getD (if i = 0 then coord.length - 1 else i - 1) (0, 0)

/-- Signed-area ("slope") expression of edge `i` of `is_in_contour`:
`(x-coord[i][0])*(coord[j][1]-coord[i][1]) - (coord[j][0]-coord[i][0])*(y-coord[i][1])`. -/
def slopeAt (x y : ℚ) (coord : List (ℚ × ℚ)) (i : ℕ) : ℚ :=
  (x - (vertAt coord i).1) * ((prevAt coord i).2 - (vertAt coord i).2) -
    ((prevAt coord i).1 - (vertAt coord i).1) * (y - (vertAt coord i).2)

/-- Straddle condition of edge `i`: `(coord[i][1] > y) != (coord[j][1] > y)`. -/
def straddlesB (y : ℚ) (coord : List (ℚ × ℚ)) (i : ℕ) : Bool :=
  decide ((vertAt coord i).2 > y) != decide ((prevAt coord i).2 > y)

/-- Crossing condition of edge `i`: the edge straddles the query's
y-coordinate and `(slope < 0) != (coord[j][1] < coord[i][1])`, which is when
the source toggles its parity accumulator. -/
def crossesB (x y : ℚ) (coord : List (ℚ × ℚ)) (i : ℕ) : Bool :=
  straddlesB y coord i &&
    (decide (slopeAt x y coord i < 0) != decide ((prevAt coord i).2 < (vertAt coord i).2))

/-- Loop of `is_in_contour` over the vertex indices `idxs`, with parity
accumulator `c`; the corner and the zero-slope boundary cases return `true`
immediately. -/
def iicGo (x y : ℚ) (coord : List (ℚ × ℚ)) : List ℕ → Bool → Bool
  | [], c => c
  | i :: rest, c =>
      if x = (vertAt coord i).1 ∧ y = (vertAt coord i).2 then true
      else if straddlesB y coord i then
        if slopeAt x y coord i = 0 then true
        else
          iicGo x y coord rest
            (if decide (slopeAt x y coord i < 0) !=
                decide ((prevAt coord i).2 < (vertAt coord i).2) then !c else c)
      else iicGo x y coord rest c

/-- Model of `is_in_contour(x, y, coord)` (source lines 201–229): crossing
number parity with corner and straddling-boundary early exits. -/
def is_in_contour (x y : ℚ) (coord : List (ℚ × ℚ)) : Bool :=
  iicGo x y coord (List.range coord.length) false

/-- Unit square contour of the spec's examples. -/
def unitSquare : List (ℚ × ℚ) := [(-1, -1), (1, -1), (1, 1), (-1, 1)]

/-! ## Bounded grid builder (`create_grid`, source lines 232–258) -/

/-- Inner loop of `create_grid` over one row: `ncols` steps at ordinate `y`,
the abscissa starting at `x` and advancing by `G` after each membership
test; a point is kept only when `is_in_contour` accepts it. -/
def gridRow (coord : List (ℚ × ℚ)) (G y : ℚ) : ℚ → ℕ → List (ℚ × ℚ)
  | _, 0 => []
  | x, j + 1 =>
      (if is_in_contour x y coord then [(x, y)] else []) ++ gridRow coord G y (x + G) j

/-- Outer loop of `create_grid`: `nrows` rows, the ordinate starting at `y`
and advancing by `G` after each row, the abscissa reset to `x0` at the start
of every row. -/
def gridRows (coord : List (ℚ × ℚ)) (G x0 : ℚ) (ncols : ℕ) : ℚ → ℕ → List (ℚ × ℚ)
  | _, 0 => []
  | y, i + 1 => gridRow coord G y x0 ncols ++ gridRows coord G x0 ncols (y + G) i

/-- Model of `create_grid(coord, ls)` (source lines 232–258): lattice spacing
`Gscale = 0.01 * ls`, `nnodes = int(2 / Gscale)` lattice divisions per axis
(for positive `ls` the Python `int()` truncation is the floor), both loops
starting at `-Gscale * nnodes / 2`.  The `ls = 0` division by zero of the
source is outside every claim's scope. -/
def create_grid (coord : List (ℚ × ℚ)) (ls : ℚ) : List (ℚ × ℚ) :=
  let Gscale : ℚ := (1 / 100) * ls
  let nnodes : ℕ := (pyInt (2 / Gscale)).toNat
  gridRows coord Gscale (-Gscale * (nnodes : ℚ) / 2) nnodes (-Gscale * (nnodes : ℚ) / 2) nnodes

/-! ## Distance-field scorer (`score_of_node`, `calculate_score_array`,
source lines 261–292) -/

/-- Distance of the grid node to the `i`-th target of the flat coordinate
array `nodes`, i.e. `sqrt((node[0]-nodes[2i])² + (node[1]-nodes[2i+1])²)`. -/
noncomputable def distToTarget (node : ℚ × ℚ) (nodes : List ℚ) (i : ℕ) : ℝ :=
  Real.sqrt (((node.1 : ℝ) - (nodes.getD (2 * i) 0 : ℚ)) ^ 2 +
    ((node.2 : ℝ) - (nodes.getD (2 * i + 1) 0 : ℚ)) ^ 2)

/-- Model of `score_of_node(node, nodes)` (source lines 261–275): minimum of
the Euclidean distances from `node` to each of the `nodes.size // 2` targets;
Python's `min` raises `ValueError` on an empty sequence, modelled as `none`. -/
noncomputable def score_of_node (node : ℚ × ℚ) (nodes : List ℚ) : Option ℝ :=
  match (List.range (nodes.length / 2)).map (distToTarget node nodes) with
  | [] => none
  | d :: ds => some (ds.foldl min d)

/-- Model of `calculate_score_array(grid, coord_inner_v)` (source lines
278–292): one score per grid node, a raised `ValueError` aborting the whole
computation. -/
noncomputable def calculate_score_array : List (ℚ × ℚ) → List ℚ → Option (List ℝ)
  | [], _ => some []
  | p :: rest, nodes => do
      let s ← score_of_node p nodes
      let r ← calculate_score_array rest nodes
      pure (s :: r)

/-! ## Local interpolation recoverer (`place_inner_vertex`, source lines
295–358) -/

/-- Neighbourhood scan of `place_inner_vertex`: for every grid index `i`
whose point shares the abscissa of `cm` and whose ordinate is within
`1.1 * G` of `cm`'s, append the (integer, possibly negative) indices
`i - 1`, `i`, `i + 1`. -/
def localLabels (grid : List (ℚ × ℚ)) (cm : ℚ × ℚ) (G : ℚ) : List ℤ :=
  (List.range grid.length).foldl
    (fun acc i =>
      let p := grid.getD i (0, 0)
      if p.1 = cm.1 ∧ |p.2 - cm.2| ≤ (11 / 10) * G then
        acc ++ [(i : ℤ) - 1, (i : ℤ), (i : ℤ) + 1]
      else acc) []

/-- Interpolation loop of `place_inner_vertex` over the position list `idxs`
(`xs = [0,1,2,5,6,7]` or `ys = [0,3,5,2,4,7]`): accumulates the weighted
coordinate sum `s` and the weight sum `ss`, each step reading
`local_domain_scores[i]` and `grid[local_domain_label[i]]`, either of which
may raise `IndexError`. -/
def sumLoop (lds : List ℚ) (labels : List ℤ) (grid : List (ℚ × ℚ))
    (proj : ℚ × ℚ → ℚ) : List ℕ → ℚ → ℚ → Option (ℚ × ℚ)
  | [], s, ss => some (s, ss)
  | i :: rest, s, ss => do
      let w ← npGet lds (i : ℤ)
      let lab ← npGet labels (i : ℤ)
      let p ← npGet grid lab
      sumLoop lds labels grid proj rest (s + w * proj p) (ss + w)

/-- Model of `place_inner_vertex(scores, grid, ls)` (source lines 295–358):
first index `m` of the minimal score, empirical lattice spacing
`Gscale = |grid[m][0] - grid[m+1][0]|`, neighbourhood label scan,
`del local_domain_label[4]`, score comprehension, and the two weighted
barycentres (`ls` is never used by the source body).  Any raised
`IndexError` is `none`. -/
def place_inner_vertex (scores : List ℚ) (grid : List (ℚ × ℚ)) (ls : ℚ) :
    Option (ℚ × ℚ) := do
  let _ := ls
  let m ← argmin scores
  let cm ← npGet grid (m : ℤ)
  let g1 ← npGet grid ((m : ℤ) + 1)
  let Gscale := |cm.1 - g1.1|
  let labels := localLabels grid cm Gscale
  let labels1 ← pyDel labels 4
  let lds ← pyMapGet scores labels1
  let xr ← sumLoop lds labels1 grid Prod.fst [0, 1, 2, 5, 6, 7] 0 0
  let yr ← sumLoop lds labels1 grid Prod.snd [0, 3, 5, 2, 4, 7] 0 0
  pure (xr.1 / xr.2, yr.1 / yr.2)

/-- State-threading variant of `place_inner_vertex`, returning the final
values of the `scores` and `grid` arrays alongside the point.  The source
body performs only reads on those two arrays (`np.argmin`, indexing, and a
comprehension into fresh local lists), never an element assignment or a
mutating method call, so the final arrays are the bindings left untouched by
the statement sequence. -/
def place_inner_vertexS (scores : List ℚ) (grid : List (ℚ × ℚ)) (ls : ℚ) :
    Option ((ℚ × ℚ) × List ℚ × List (ℚ × ℚ)) := do
  let _ := ls
  let m ← argmin scores
  let cm ← npGet grid (m : ℤ)
  let g1 ← npGet grid ((m : ℤ) + 1)
  let Gscale := |cm.1 - g1.1|
  let labels := localLabels grid cm Gscale
  let labels1 ← pyDel labels 4
  let lds ← pyMapGet scores labels1
  let xr ← sumLoop lds labels1 grid Prod.fst [0, 1, 2, 5, 6, 7] 0 0
  let yr ← sumLoop lds labels1 grid Prod.snd [0, 3, 5, 2, 4, 7] 0 0
  pure ((xr.1 / xr.2, yr.1 / yr.2), scores, grid)

/-! ## Grid pruning and recovery loop (`remove_points_grid`,
`compute_vertices`, source lines 361–406) -/

/-- Model of `remove_points_grid(ls, vert, grid, scores)` (source lines
361–382): collect the grid indices strictly within Euclidean radius
`0.1 * ls` of `vert`, then delete those positions from both arrays with
`np.delete`. -/
def remove_points_grid (ls : ℚ) (vert : ℚ × ℚ) (grid : List (ℚ × ℚ))
    (scores : List ℚ) : List (ℚ × ℚ) × List ℚ :=
  let radius := (1 / 10) * ls
  let to_remove := (List.range grid.length).filter fun i =>
    decide (((grid.getD i (0, 0)).1 - vert.1) ^ 2 +
      ((grid.getD i (0, 0)).2 - vert.2) ^ 2 < radius ^ 2)
  (npDelete grid to_remove, npDelete scores to_remove)

/-- Model of `compute_vertices(ls, contour, grid, scores, nb_inner_v)`
(source lines 385–406): exactly `nb_inner_v` iterations, each recovering one
point with `place_inner_vertex` and then pruning both arrays with
`remove_points_grid`; a raised exception aborts the whole loop (`contour` is
never used by the source body). -/
def compute_vertices (ls : ℚ) (contour : List (ℚ × ℚ)) :
    List (ℚ × ℚ) → List ℚ → ℕ → Option (List (ℚ × ℚ))
  | _, _, 0 => some []
  | grid, scores, n + 1 => do
      let _ := contour
      let p ← place_inner_vertex scores grid ls
      let gs := remove_points_grid ls p grid scores
      let rest ← compute_vertices ls contour gs.1 gs.2 n
      pure (p :: rest)

/-- Nearness test of `remove_points_grid`: strict Euclidean ball of radius
`0.1 * ls` around the recovered vertex, compared on squares. -/
def closeTo (ls : ℚ) (vert p : ℚ × ℚ) : Bool :=
  decide ((p.1 - vert.1) ^ 2 + (p.2 - vert.2) ^ 2 < ((1 / 10) * ls) ^ 2)

/-- Regular 3×3 integer lattice in row-major order, used as a concrete
grid. -/
def grid9 : List (ℚ × ℚ) :=
  [(0, 0), (1, 0), (2, 0), (0, 1), (1, 1), (2, 1), (0, 2), (1, 2), (2, 2)]

/-- Scores over `grid9` with the unique minimum at the centre index 4 and an
asymmetric corner weight, so the interpolated point is off-lattice. -/
def scores9 : List ℚ := [1, 1, 1, 1, 0, 1, 1, 1, 2]

/-- Regular 4×4 integer lattice in row-major order, used as a concrete
grid. -/
def grid16 : List (ℚ × ℚ) :=
  [(0, 0), (1, 0), (2, 0), (3, 0), (0, 1), (1, 1), (2, 1), (3, 1),
   (0, 2), (1, 2), (2, 2), (3, 2), (0, 3), (1, 3), (2, 3), (3, 3)]

/-- Scores over `grid16` with the unique minimum at index 8, the first entry
of row 2 — a point on the left boundary column of the lattice. -/
def scores16 : List ℚ :=
  [1, 1, 1, 1, 1, 1, 1, 1, 0, 1, 1, 1, 1, 1, 1, 1]

/-- Score weight of the entry at position `i` of the post-deletion
neighbourhood label list: `scores[local_domain_label[i]]`. -/
def nbrScore (scores : List ℚ) (labels : List ℤ) (i : ℕ) : ℚ :=
  (npGet scores (labels.getD i 0)).getD 0

/-- Grid point of the entry at position `i` of the post-deletion
neighbourhood label list: `grid[local_domain_label[i]]`. -/
def nbrPoint (grid : List (ℚ × ℚ)) (labels : List ℤ) (i : ℕ) : ℚ × ℚ :=
  (npGet grid (labels.getD i 0)).getD (0, 0)

/-! ## Spec-side vocabulary for the grid builder's closed form -/

/-- Number of lattice divisions per axis claimed by the spec:
`floor(2 / Gscale)` with `Gscale = 0.01 * ls`. -/
def latticeDivisions (ls : ℚ) : ℕ := (⌊(2 : ℚ) / ((1 / 100) * ls)⌋).toNat

/-- Bottom-left corner of the lattice window: `-Gscale * nnodes / 2`. -/
def latticeOrigin (ls : ℚ) : ℚ :=
  -((1 / 100) * ls) * (latticeDivisions ls : ℚ) / 2

/-- Lattice point in column `j` of row `i`, both counted from the
bottom-left corner with spacing `Gscale = 0.01 * ls`. -/
def latticePoint (ls : ℚ) (j i : ℕ) : ℚ × ℚ :=
  (latticeOrigin ls + (j : ℚ) * ((1 / 100) * ls),
   latticeOrigin ls + (i : ℚ) * ((1 / 100) * ls))

/-! ## Lemmas about the point-in-polygon loop -/

/-- Toggling the parity accumulator matches incrementing the crossing
count. -/
lemma xor_odd_succ (c : Bool) (k : ℕ) :
    ((!c) != decide (Odd k)) = (c != decide (Odd (k + 1))) := by
  rcases Nat.even_or_odd k with h | h
  · have h1 : decide (Odd k) = false := by simp [Nat.not_odd_iff_even.mpr h]
    have h2 : decide (Odd (k + 1)) = true := by
      simp [Nat.odd_add_one, Nat.not_odd_iff_even.mpr h]
    rw [h1, h2]; cases c <;> rfl
  · have h1 : decide (Odd k) = true := by simp [h]
    have h2 : decide (Odd (k + 1)) = false := by simp [Nat.odd_add_one, h]
    rw [h1, h2]; cases c <;> rfl

/-- With no corner hit and no vanishing slope on a straddling edge along
`idxs`, the loop computes the parity of the crossing count, xor-ed onto the
incoming accumulator. -/
lemma iicGo_parity (x y : ℚ) (coord : List (ℚ × ℚ)) :
    ∀ (idxs : List ℕ) (c : Bool),
      (∀ i ∈ idxs, ¬(x = (vertAt coord i).1 ∧ y = (vertAt coord i).2) ∧
        (straddlesB y coord i = true → slopeAt x y coord i ≠ 0)) →
      iicGo x y coord idxs c =
        (c != decide (Odd (idxs.countP (crossesB x y coord))))
  | [], c, _ => by simp [iicGo]
  | i :: rest, c, h => by
    obtain ⟨hcorner, hslope⟩ := h i (List.mem_cons_self i rest)
    have hrest := fun j hj => h j (List.mem_cons_of_mem i hj)
    rw [iicGo, if_neg hcorner, List.countP_cons]
    cases hst : straddlesB y coord i with
    | false =>
      have hcross : crossesB x y coord i = false := by
        simp [crossesB, hst]
      rw [if_neg (by simp [hst]), iicGo_parity x y coord rest c hrest, hcross]
      simp
    | true =>
      rw [if_pos rfl, if_neg (hslope hst)]
      have hcross : crossesB x y coord i =
          (decide (slopeAt x y coord i < 0) !=
            decide ((prevAt coord i).2 < (vertAt coord i).2)) := by
        simp [crossesB, hst]
      rw [iicGo_parity x y coord rest _ hrest, hcross]
      cases ht : (decide (slopeAt x y coord i < 0) !=
          decide ((prevAt coord i).2 < (vertAt coord i).2)) with
      | false => simp
      | true =>
        rw [if_pos rfl, if_pos rfl]
        exact xor_odd_succ c _

/-- The loop returns `true` as soon as some listed edge index triggers the
corner case or the straddling zero-slope (on-boundary) case. -/
lemma iicGo_trigger (x y : ℚ) (coord : List (ℚ × ℚ)) :
    ∀ (idxs : List ℕ) (c : Bool) (i : ℕ), i ∈ idxs →
      ((x = (vertAt coord i).1 ∧ y = (vertAt coord i).2) ∨
        (straddlesB y coord i = true ∧ slopeAt x y coord i = 0)) →
      iicGo x y coord idxs c = true
  | [], _, i, hi, _ => absurd hi (List.not_mem_nil i)
  | j :: rest, c, i, hi, htrig => by
    rw [iicGo]
    by_cases hcorner : x = (vertAt coord j).1 ∧ y = (vertAt coord j).2
    · rw [if_pos hcorner]
    · rw [if_neg hcorner]
      rcases List.mem_cons.mp hi with rfl | hmem
      · rcases htrig with hc | ⟨hst, hsl⟩
        · exact absurd hc hcorner
        · rw [if_pos hst, if_pos hsl]
      · cases hst : straddlesB y coord j with
        | false =>
          rw [if_neg (by simp [hst])]
          exact iicGo_trigger x y coord rest c i hmem htrig
        | true =>
          rw [if_pos rfl]
          by_cases hsl : slopeAt x y coord j = 0
          · rw [if_pos hsl]
          · rw [if_neg hsl]
            exact iicGo_trigger x y coord rest _ i hmem htrig

/-! ## Lemmas about the grid builder -/

/-- Closed form of one row of the grid builder: the accepted lattice points
`(x + j*G, y)` for `j < k`, in increasing `j` order. -/
lemma gridRow_eq (coord : List (ℚ × ℚ)) (G y : ℚ) :
    ∀ (k : ℕ) (x : ℚ),
      gridRow coord G y x k = (List.range k).filterMap (fun (j : ℕ) =>
        if is_in_contour (x + (j : ℚ) * G) y coord then
          some (x + (j : ℚ) * G, y) else none)
  | 0, x => by simp [gridRow]
  | k + 1, x => by
    have harg : ∀ j : ℕ, x + ((j : ℚ) + 1) * G = (x + G) + (j : ℚ) * G := by
      intro j; ring
    have hfun : ((fun (j : ℕ) =>
          if is_in_contour (x + (j : ℚ) * G) y coord then
            some (x + (j : ℚ) * G, y) else none) ∘ Nat.succ) =
        fun (j : ℕ) =>
          if is_in_contour ((x + G) + (j : ℚ) * G) y coord then
            some ((x + G) + (j : ℚ) * G, y) else none := by
      funext j
      simp only [Function.comp_apply, Nat.cast_succ, harg]
    rw [gridRow, gridRow_eq coord G y k (x + G), List.range_succ_eq_map,
      List.filterMap_cons, List.filterMap_map, hfun]
    simp only [Nat.cast_zero, zero_mul, add_zero]
    cases h : is_in_contour x y coord <;> simp

/-- Closed form of the row loop of the grid builder: row `i` lives at
ordinate `y + i*G` and is scanned left to right from `x0`. -/
lemma gridRows_eq (coord : List (ℚ × ℚ)) (G x0 : ℚ) (n : ℕ) :
    ∀ (r : ℕ) (y : ℚ),
      gridRows coord G x0 n y r = (List.range r).flatMap (fun (i : ℕ) =>
        (List.range n).filterMap (fun (j : ℕ) =>
          if is_in_contour (x0 + (j : ℚ) * G) (y + (i : ℚ) * G) coord then
            some (x0 + (j : ℚ) * G, y + (i : ℚ) * G) else none))
  | 0, y => by simp [gridRows]
  | r + 1, y => by
    have harg : ∀ i : ℕ, y + ((i : ℚ) + 1) * G = (y + G) + (i : ℚ) * G := by
      intro i; ring
    rw [gridRows, gridRows_eq coord G x0 n r (y + G), List.range_succ_eq_map,
      List.flatMap_cons, List.flatMap_map, gridRow_eq]
    simp only [Nat.cast_succ, Nat.cast_zero, zero_mul, add_zero, harg]

/-! ## Claim C5 -/

/-- C5: for every polygon and every query point that neither equals a vertex
nor makes the slope test vanish on a straddling edge, `is_in_contour` returns
`true` iff the number of edges that straddle the query's y-coordinate and
whose signed-area test indicates a crossing on the correct side is odd. -/
theorem is_in_contour_crossing_parity (x y : ℚ) (coord : List (ℚ × ℚ))
    (hv : ∀ i < coord.length, ¬(x = (vertAt coord i).1 ∧ y = (vertAt coord i).2))
    (hs : ∀ i < coord.length, straddlesB y coord i = true → slopeAt x y coord i ≠ 0) :
    is_in_contour x y coord =
      decide (Odd ((List.range coord.length).countP (crossesB x y coord))) := by
  rw [is_in_contour, iicGo_parity]
  · simp
  · intro i hi
    exact ⟨hv i (List.mem_range.mp hi), hs i (List.mem_range.mp hi)⟩

/-- Witness for C5 at the interior point `(0, 0)` of the unit square. -/
theorem is_in_contour_crossing_parity_witness :
    (∀ i < unitSquare.length,
        ¬((0 : ℚ) = (vertAt unitSquare i).1 ∧ (0 : ℚ) = (vertAt unitSquare i).2)) ∧
    (∀ i < unitSquare.length,
        straddlesB 0 unitSquare i = true → slopeAt 0 0 unitSquare i ≠ 0) ∧
    is_in_contour 0 0 unitSquare =
      decide (Odd ((List.range unitSquare.length).countP (crossesB 0 0 unitSquare))) := by
  have hv : ∀ i < unitSquare.length,
      ¬((0 : ℚ) = (vertAt unitSquare i).1 ∧ (0 : ℚ) = (vertAt unitSquare i).2) := by
    intro i hi
    have hi4 : i < 4 := by simpa [unitSquare] using hi
    interval_cases i <;> norm_num [vertAt, unitSquare]
  have hs : ∀ i < unitSquare.length,
      straddlesB 0 unitSquare i = true → slopeAt 0 0 unitSquare i ≠ 0 := by
    intro i hi
    have hi4 : i < 4 := by simpa [unitSquare] using hi
    interval_cases i <;> norm_num [straddlesB, slopeAt, vertAt, prevAt, unitSquare]
  exact ⟨hv, hs, is_in_contour_crossing_parity 0 0 unitSquare hv hs⟩

/-! ## Claim C6 -/

/-- C6 is refuted: `(0, 1)` lies on the top edge of the unit square (both
endpoints, vertices 3 and 2, have ordinate `1`, and the abscissa `0` is
between theirs), yet `is_in_contour` returns `false` — a boundary point on a
horizontal edge is not treated as interior. -/
theorem is_in_contour_horizontal_edge_false :
    (vertAt unitSquare 3).2 = 1 ∧ (vertAt unitSquare 2).2 = 1 ∧
    (vertAt unitSquare 3).1 ≤ 0 ∧ (0 : ℚ) ≤ (vertAt unitSquare 2).1 ∧
    is_in_contour 0 1 unitSquare = false := by
  refine ⟨by norm_num [vertAt, unitSquare], by norm_num [vertAt, unitSquare],
    by norm_num [vertAt, unitSquare], by norm_num [vertAt, unitSquare], ?_⟩
  norm_num [is_in_contour, iicGo, vertAt, prevAt, straddlesB, slopeAt,
    unitSquare, List.range_succ]

/-- C6 (amended): `is_in_contour` returns `true` for every query equal to a
vertex, and for every query on an edge whose endpoints straddle the query's
y-coordinate (in particular any point interior to a non-horizontal edge);
points on horizontal edges can fall through to the parity count.  The unit
square examples of the claim all hold. -/
theorem is_in_contour_boundary_cases :
    (∀ (x y : ℚ) (coord : List (ℚ × ℚ)),
        ((∃ i, i < coord.length ∧ x = (vertAt coord i).1 ∧ y = (vertAt coord i).2) ∨
          (∃ i, i < coord.length ∧ straddlesB y coord i = true ∧
            slopeAt x y coord i = 0)) →
        is_in_contour x y coord = true) ∧
    is_in_contour 0 0 unitSquare = true ∧
    is_in_contour 2 2 unitSquare = false ∧
    is_in_contour 1 0 unitSquare = true := by
  refine ⟨?_, ?_, ?_, ?_⟩
  · rintro x y coord (⟨i, hi, hc⟩ | ⟨i, hi, hs1, hs2⟩)
    · exact iicGo_trigger x y coord _ false i (List.mem_range.mpr hi) (Or.inl hc)
    · exact iicGo_trigger x y coord _ false i (List.mem_range.mpr hi)
        (Or.inr ⟨hs1, hs2⟩)
  · norm_num [is_in_contour, iicGo, vertAt, prevAt, straddlesB, slopeAt,
      unitSquare, List.range_succ]
  · norm_num [is_in_contour, iicGo, vertAt, prevAt, straddlesB, slopeAt,
      unitSquare, List.range_succ]
  · norm_num [is_in_contour, iicGo, vertAt, prevAt, straddlesB, slopeAt,
      unitSquare, List.range_succ]

/-- Witness for C6 (amended) at the on-boundary point `(1, 0)` of the unit
square, which triggers the straddling zero-slope case on edge `2`. -/
theorem is_in_contour_boundary_cases_witness :
    ((∃ i, i < unitSquare.length ∧ (1 : ℚ) = (vertAt unitSquare i).1 ∧
        (0 : ℚ) = (vertAt unitSquare i).2) ∨
      (∃ i, i < unitSquare.length ∧ straddlesB 0 unitSquare i = true ∧
        slopeAt 1 0 unitSquare i = 0)) ∧
    is_in_contour 1 0 unitSquare = true := by
  have h : (∃ i, i < unitSquare.length ∧ (1 : ℚ) = (vertAt unitSquare i).1 ∧
        (0 : ℚ) = (vertAt unitSquare i).2) ∨
      (∃ i, i < unitSquare.length ∧ straddlesB 0 unitSquare i = true ∧
        slopeAt 1 0 unitSquare i = 0) := by
    refine Or.inr ⟨2, by norm_num [unitSquare], ?_, ?_⟩
    · norm_num [straddlesB, vertAt, prevAt, unitSquare]
    · norm_num [slopeAt, vertAt, prevAt, unitSquare]
  exact ⟨h, is_in_contour_boundary_cases.1 1 0 unitSquare h⟩

/-! ## Claim C3 -/

/-- C3: for every polygon and every `ls > 0`, `create_grid` uses lattice
spacing `0.01 * ls`, computes `floor(2 / Gscale)` divisions per axis, starts
at the bottom-left corner `(-Gscale*n/2, -Gscale*n/2)`, iterates y outer and
x inner advancing by `Gscale`, and returns exactly the oracle-accepted
lattice points in row-major order; a polygon with zero interior at this
resolution yields the empty grid. -/
theorem create_grid_rowMajor (coord : List (ℚ × ℚ)) (ls : ℚ) (h : 0 < ls) :
    create_grid coord ls =
      (List.range (latticeDivisions ls)).flatMap (fun (i : ℕ) =>
        (List.range (latticeDivisions ls)).filterMap (fun (j : ℕ) =>
          if is_in_contour (latticePoint ls j i).1 (latticePoint ls j i).2 coord then
            some (latticePoint ls j i) else none)) ∧
    ((∀ i < latticeDivisions ls, ∀ j < latticeDivisions ls,
        is_in_contour (latticePoint ls j i).1 (latticePoint ls j i).2 coord = false) →
      create_grid coord ls = []) := by
  have hn : (pyInt (2 / ((1 / 100) * ls))).toNat = latticeDivisions ls := by
    rw [latticeDivisions, pyInt, if_pos (by positivity)]
  have h1 : create_grid coord ls =
      (List.range (latticeDivisions ls)).flatMap (fun (i : ℕ) =>
        (List.range (latticeDivisions ls)).filterMap (fun (j : ℕ) =>
          if is_in_contour (latticePoint ls j i).1 (latticePoint ls j i).2 coord then
            some (latticePoint ls j i) else none)) := by
    simp only [create_grid, hn, gridRows_eq, latticePoint, latticeOrigin]
  refine ⟨h1, fun hall => ?_⟩
  rw [h1]
  refine List.bind_eq_nil.mpr fun i hi => ?_
  refine List.filterMap_eq_nil.mpr fun j hj => ?_
  rw [hall i (List.mem_range.mp hi) j (List.mem_range.mp hj)]
  simp

/-- Witness for C3 at `ls = 200` (one lattice division) over the unit
square. -/
theorem create_grid_rowMajor_witness :
    (0 : ℚ) < 200 ∧
    (create_grid unitSquare 200 =
      (List.range (latticeDivisions 200)).flatMap (fun (i : ℕ) =>
        (List.range (latticeDivisions 200)).filterMap (fun (j : ℕ) =>
          if is_in_contour (latticePoint 200 j i).1 (latticePoint 200 j i).2
              unitSquare then
            some (latticePoint 200 j i) else none)) ∧
      ((∀ i < latticeDivisions 200, ∀ j < latticeDivisions 200,
          is_in_contour (latticePoint 200 j i).1 (latticePoint 200 j i).2
            unitSquare = false) →
        create_grid unitSquare 200 = [])) :=
  ⟨by norm_num, create_grid_rowMajor unitSquare 200 (by norm_num)⟩

/-! ## Lemmas about the distance-field scorer -/

/-- A left fold by `min` is bounded by its seed. -/
lemma foldl_min_le_self : ∀ (ds : List ℝ) (d : ℝ), ds.foldl min d ≤ d
  | [], d => le_refl d
  | e :: es, d =>
      le_trans (foldl_min_le_self es (min d e)) (min_le_left d e)

/-- A left fold by `min` is bounded by every list element. -/
lemma foldl_min_le_mem : ∀ (ds : List ℝ) (d e : ℝ), e ∈ ds → ds.foldl min d ≤ e
  | [], _, e, he => absurd he (List.not_mem_nil e)
  | a :: es, d, e, he => by
    rcases List.mem_cons.mp he with rfl | hmem
    · exact le_trans (foldl_min_le_self es (min d e)) (min_le_right d e)
    · exact foldl_min_le_mem es (min d a) e hmem

/-- A left fold by `min` is the seed or one of the list elements. -/
lemma foldl_min_mem : ∀ (ds : List ℝ) (d : ℝ),
    ds.foldl min d = d ∨ ds.foldl min d ∈ ds
  | [], d => Or.inl rfl
  | a :: es, d => by
    rcases foldl_min_mem es (min d a) with h | h
    · rcases min_choice d a with hm | hm
      · exact Or.inl (by rw [List.foldl_cons, h, hm])
      · exact Or.inr (by rw [List.foldl_cons, h, hm]; exact List.mem_cons_self a es)
    · exact Or.inr (List.mem_cons_of_mem a h)

/-- With at least one complete target pair, `score_of_node` returns the
minimum of the distances: a value below all of them and attained by one. -/
lemma score_of_node_spec (node : ℚ × ℚ) (nodes : List ℚ)
    (h : 0 < nodes.length / 2) :
    ∃ s, score_of_node node nodes = some s ∧
      (∀ j < nodes.length / 2, s ≤ distToTarget node nodes j) ∧
      (∃ j < nodes.length / 2, s = distToTarget node nodes j) := by
  rw [score_of_node]
  cases hm : (List.range (nodes.length / 2)).map (distToTarget node nodes) with
  | nil =>
    have : nodes.length / 2 = 0 := by
      have := congrArg List.length hm
      simpa using this
    omega
  | cons d ds =>
    refine ⟨ds.foldl min d, rfl, ?_, ?_⟩
    · intro j hj
      have hmem : distToTarget node nodes j ∈ d :: ds := by
        rw [← hm]
        exact List.mem_map_of_mem _ (List.mem_range.mpr hj)
      rcases List.mem_cons.mp hmem with he | he
      · rw [he] at *
        exact foldl_min_le_self ds _
      · exact foldl_min_le_mem ds d _ he
    · have hval : ds.foldl min d ∈ d :: ds := by
        rcases foldl_min_mem ds d with h1 | h1
        · rw [h1]; exact List.mem_cons_self d ds
        · exact List.mem_cons_of_mem d h1
      rw [← hm] at hval
      obtain ⟨j, hj, hje⟩ := List.mem_map.mp hval
      exact ⟨j, List.mem_range.mp hj, hje.symm⟩

/-- With no complete target pair, `score_of_node` raises. -/
lemma score_of_node_none (node : ℚ × ℚ) (nodes : List ℚ)
    (h : nodes.length / 2 = 0) : score_of_node node nodes = none := by
  rw [score_of_node, h]
  rfl

/-- Success form of `calculate_score_array` when the target set is
non-empty, with the per-index minimum characterisation. -/
lemma calculate_score_array_some (nodes : List ℚ) (h : 0 < nodes.length / 2) :
    ∀ grid : List (ℚ × ℚ),
      ∃ F, calculate_score_array grid nodes = some F ∧ F.length = grid.length ∧
        ∀ i < grid.length,
          (∀ j < nodes.length / 2,
            F.getD i 0 ≤ distToTarget (grid.getD i (0, 0)) nodes j) ∧
          (∃ j < nodes.length / 2,
            F.getD i 0 = distToTarget (grid.getD i (0, 0)) nodes j)
  | [] => ⟨[], rfl, rfl, by intro i hi; simp at hi⟩
  | p :: rest => by
    obtain ⟨s, hs, hsle, hsmem⟩ := score_of_node_spec p nodes h
    obtain ⟨F, hF, hFlen, hFspec⟩ := calculate_score_array_some nodes h rest
    refine ⟨s :: F, ?_, by simpa using hFlen, ?_⟩
    · rw [calculate_score_array, hs, hF]
      rfl
    · intro i hi
      cases i with
      | zero => exact ⟨hsle, hsmem⟩
      | succ i => exact hFspec i (by simpa using hi)

/-- Failure of `calculate_score_array` is equivalent to an empty target set
together with a non-empty grid. -/
lemma calculate_score_array_none_iff (nodes : List ℚ) :
    ∀ grid : List (ℚ × ℚ),
      (calculate_score_array grid nodes = none ↔
        (nodes.length / 2 = 0 ∧ grid ≠ []))
  | [] => by simp [calculate_score_array]
  | p :: rest => by
    rcases Nat.eq_zero_or_pos (nodes.length / 2) with h0 | hpos
    · rw [calculate_score_array, score_of_node_none p nodes h0]
      simp [h0]
    · obtain ⟨s, hs, _, _⟩ := score_of_node_spec p nodes hpos
      obtain ⟨F, hF, _, _⟩ := calculate_score_array_some nodes hpos rest
      rw [calculate_score_array, hs, hF]
      simp
      omega

/-! ## Claim C4 -/

/-- C4 is refuted as universally stated: with an empty grid the scorer
succeeds (returning the empty field) even though the target set is empty, so
"fails if and only if the target set is empty" does not hold for every
grid. -/
theorem calculate_score_array_empty_grid :
    calculate_score_array [] [] = some [] ∧ ([] : List ℚ).length / 2 = 0 :=
  ⟨rfl, rfl⟩

/-- C4 (amended): with at least one complete target pair the scorer returns a
field of the grid's length whose `i`-th entry is the minimum distance from
grid point `i` to the targets; and it fails exactly when the target set is
empty and the grid is non-empty (an empty grid returns the empty field
without consulting the targets). -/
theorem calculate_score_array_spec (grid : List (ℚ × ℚ)) (nodes : List ℚ) :
    (0 < nodes.length / 2 →
      ∃ F, calculate_score_array grid nodes = some F ∧ F.length = grid.length ∧
        ∀ i < grid.length,
          (∀ j < nodes.length / 2,
            F.getD i 0 ≤ distToTarget (grid.getD i (0, 0)) nodes j) ∧
          (∃ j < nodes.length / 2,
            F.getD i 0 = distToTarget (grid.getD i (0, 0)) nodes j)) ∧
    (calculate_score_array grid nodes = none ↔
      (nodes.length / 2 = 0 ∧ grid ≠ [])) :=
  ⟨fun h => calculate_score_array_some nodes h grid,
   calculate_score_array_none_iff nodes grid⟩

/-- Witness for C4 (amended) on a one-point grid and the single target
`(3, 4)`. -/
theorem calculate_score_array_spec_witness :
    0 < ([3, 4] : List ℚ).length / 2 ∧
    ((0 < ([3, 4] : List ℚ).length / 2 →
      ∃ F, calculate_score_array [((0 : ℚ), (0 : ℚ))] [3, 4] = some F ∧
        F.length = [((0 : ℚ), (0 : ℚ))].length ∧
        ∀ i < [((0 : ℚ), (0 : ℚ))].length,
          (∀ j < ([3, 4] : List ℚ).length / 2,
            F.getD i 0 ≤ distToTarget ([((0 : ℚ), (0 : ℚ))].getD i (0, 0)) [3, 4] j) ∧
          (∃ j < ([3, 4] : List ℚ).length / 2,
            F.getD i 0 = distToTarget ([((0 : ℚ), (0 : ℚ))].getD i (0, 0)) [3, 4] j)) ∧
    (calculate_score_array [((0 : ℚ), (0 : ℚ))] [3, 4] = none ↔
      (([3, 4] : List ℚ).length / 2 = 0 ∧ [((0 : ℚ), (0 : ℚ))] ≠ []))) :=
  ⟨by norm_num, calculate_score_array_spec [((0 : ℚ), (0 : ℚ))] [3, 4]⟩

/-! ## Lemmas about grid pruning -/

/-- Membership test of a filtered index range, below the bound. -/
lemma contains_filter_range (n k : ℕ) (f : ℕ → Bool) (hk : k < n) :
    ((List.range n).filter f).contains k = f k := by
  cases hf : f k with
  | false =>
    simp only [List.elem_eq_mem, List.mem_filter, List.mem_range,
      decide_eq_false_iff_not]
    rintro ⟨-, h⟩
    rw [hf] at h
    exact Bool.false_ne_true h
  | true =>
    simp only [List.elem_eq_mem, List.mem_filter, List.mem_range,
      decide_eq_true_iff]
    exact ⟨hk, hf⟩

/-- Positional deletion agrees with value-level filtering when the deleted
index set is characterised by a predicate on the stored elements. -/
lemma npDeleteFrom_eq_filter {A : Type} (d : A) (pred : A → Bool)
    (idxs : List ℕ) :
    ∀ (xs : List A) (i0 : ℕ),
      (∀ k < xs.length, idxs.contains (i0 + k) = pred (xs.getD k d)) →
      npDeleteFrom xs idxs i0 = xs.filter (fun a => !pred a)
  | [], i0, _ => rfl
  | a :: rest, i0, h => by
    have h0 : idxs.contains i0 = pred a := by simpa using h 0 (by simp)
    have hrec : npDeleteFrom rest idxs (i0 + 1) =
        rest.filter (fun a => !pred a) := by
      refine npDeleteFrom_eq_filter d pred idxs rest (i0 + 1) fun k hk => ?_
      have := h (k + 1) (by simpa using hk)
      simpa [Nat.add_assoc, Nat.add_comm 1 k] using this
    simp only [npDeleteFrom]
    rw [h0, hrec, List.filter_cons]
    cases hp : pred a <;> simp [hp]

/-- Positional deletion on the parallel array agrees with filtering the
zipped pair by the predicate on the first component. -/
lemma npDeleteFrom_zip_filter {A B : Type} (dA : A) (pred : A → Bool)
    (idxs : List ℕ) :
    ∀ (xs : List A) (ys : List B) (i0 : ℕ),
      ys.length = xs.length →
      (∀ k < xs.length, idxs.contains (i0 + k) = pred (xs.getD k dA)) →
      npDeleteFrom ys idxs i0 =
        ((xs.zip ys).filter (fun q => !pred q.1)).map Prod.snd
  | [], ys, i0, hlen, _ => by
    have : ys = [] := List.length_eq_zero.mp (by simpa using hlen)
    simp [this, npDeleteFrom]
  | a :: rest, ys, i0, hlen, h => by
    cases ys with
    | nil => simp at hlen
    | cons b yr =>
      have h0 : idxs.contains i0 = pred a := by simpa using h 0 (by simp)
      have hrec : npDeleteFrom yr idxs (i0 + 1) =
          ((rest.zip yr).filter (fun q => !pred q.1)).map Prod.snd := by
        refine npDeleteFrom_zip_filter dA pred idxs rest yr (i0 + 1)
          (by simpa using hlen) fun k hk => ?_
        have := h (k + 1) (by simpa using hk)
        simpa [Nat.add_assoc, Nat.add_comm 1 k] using this
      simp only [npDeleteFrom]
      rw [h0, hrec, List.zip_cons_cons, List.filter_cons]
      cases hp : pred a <;> simp [hp]

/-- Filtering the zip on the first component yields as many entries as
filtering the first list, when the lengths agree. -/
lemma length_filter_zip_fst {A B : Type} (p : A → Bool) :
    ∀ (xs : List A) (ys : List B), ys.length = xs.length →
      ((xs.zip ys).filter (fun q => p q.1)).length = (xs.filter p).length
  | [], ys, _ => by simp
  | a :: rest, ys, hlen => by
    cases ys with
    | nil => simp at hlen
    | cons b yr =>
      have hrec := length_filter_zip_fst p rest yr (by simpa using hlen)
      rw [List.zip_cons_cons, List.filter_cons, List.filter_cons]
      cases hp : p a <;> simp [hp, hrec]

/-- Characterisation of `remove_points_grid` on parallel arrays: the
survivors of the grid are exactly the points outside the exclusion ball, the
scores are pruned in lockstep, and both keep their relative order. -/
lemma remove_points_grid_eq (ls : ℚ) (vert : ℚ × ℚ) (grid : List (ℚ × ℚ))
    (scores : List ℚ) (h : scores.length = grid.length) :
    (remove_points_grid ls vert grid scores).1 =
      grid.filter (fun p => !closeTo ls vert p) ∧
    (remove_points_grid ls vert grid scores).2 =
      ((grid.zip scores).filter (fun q => !closeTo ls vert q.1)).map Prod.snd := by
  have hchar : ∀ k < grid.length,
      (((List.range grid.length).filter fun i =>
        decide (((grid.getD i (0, 0)).1 - vert.1) ^ 2 +
          ((grid.getD i (0, 0)).2 - vert.2) ^ 2 < ((1 / 10) * ls) ^ 2)).contains
        (0 + k)) = closeTo ls vert (grid.getD k (0, 0)) := by
    intro k hk
    rw [Nat.zero_add, contains_filter_range _ _ _ hk, closeTo]
  constructor
  · exact npDeleteFrom_eq_filter (0, 0) (closeTo ls vert) _ grid 0 hchar
  · exact npDeleteFrom_zip_filter (0, 0) (closeTo ls vert) _ grid scores 0 h hchar

/-! ## Lemmas about Python indexing and `argmin` -/

/-- In-range nonnegative indexing returns the default-valued lookup. -/
lemma npGet_nat_getD {α : Type} (xs : List α) (d : α) (i : ℕ)
    (h : i < xs.length) : npGet xs (i : ℤ) = some (xs.getD i d) := by
  rw [npGet, if_pos (by constructor <;> [positivity; exact_mod_cast h])]
  rw [Int.toNat_natCast]
  rw [List.getD_eq_getElem?_getD, List.get?_eq_getElem?, List.getElem?_eq_getElem h]
  rfl

/-- Nonnegative indexing beyond the length raises. -/
lemma npGet_nat_none {α : Type} (xs : List α) (i : ℕ)
    (h : xs.length ≤ i) : npGet xs (i : ℤ) = none := by
  rw [npGet, if_neg, if_neg]
  · rintro ⟨-, h2⟩
    omega
  · rintro ⟨-, h2⟩
    have : (0 : ℤ) ≤ (i : ℤ) := by positivity
    omega

/-- An in-range default-valued lookup is a member of the list. -/
lemma getD_mem {α : Type} (xs : List α) (d : α) (i : ℕ) (h : i < xs.length) :
    xs.getD i d ∈ xs := by
  rw [List.getD_eq_getElem?_getD, List.getElem?_eq_getElem h]
  exact List.getElem_mem _

/-- Default-valued lookup through a `map`, below the length. -/
lemma getD_map_lt {α β : Type} (f : α → β) (xs : List α) (d : β) (d' : α)
    (i : ℕ) (h : i < xs.length) : (xs.map f).getD i d = f (xs.getD i d') := by
  rw [List.getD_eq_getElem?_getD, List.getD_eq_getElem?_getD,
    List.getElem?_eq_getElem (by simpa using h),
    List.getElem?_eq_getElem h]
  simp

/-- The running argmin index is the seed or lands in the remaining block. -/
lemma argminAux_cases : ∀ (l : List ℚ) (bi : ℕ) (bv : ℚ) (i : ℕ),
    argminAux l bi bv i = bi ∨
      (i ≤ argminAux l bi bv i ∧ argminAux l bi bv i < i + l.length)
  | [], bi, _, i => Or.inl rfl
  | w :: rest, bi, bv, i => by
    rw [argminAux]
    split
    · rcases argminAux_cases rest i w (i + 1) with h | h
      · exact Or.inr (by simp [h])
      · exact Or.inr ⟨by omega, by simpa [Nat.add_assoc, Nat.add_comm 1] using h.2⟩
    · rcases argminAux_cases rest bi bv (i + 1) with h | h
      · exact Or.inl h
      · exact Or.inr ⟨by omega, by simpa [Nat.add_assoc, Nat.add_comm 1] using h.2⟩

/-- `np.argmin` returns an in-range index. -/
lemma argmin_lt_length (scores : List ℚ) (m : ℕ)
    (h : argmin scores = some m) : m < scores.length := by
  cases scores with
  | nil => simp [argmin] at h
  | cons v rest =>
    rw [argmin, Option.some_inj] at h
    subst h
    rcases argminAux_cases rest 0 v 1 with h1 | h1
    · rw [h1]
      simp
    · simp only [List.length_cons]
      omega

/-- A comprehension whose every lookup succeeds maps the lookups over the
label list. -/
lemma pyMapGet_eq_map (scores : List ℚ) :
    ∀ labels : List ℤ, (∀ l ∈ labels, (npGet scores l).isSome) →
      pyMapGet scores labels =
        some (labels.map fun l => (npGet scores l).getD 0)
  | [], _ => rfl
  | l :: rest, h => by
    obtain ⟨w, hw⟩ := Option.isSome_iff_exists.mp (h l (List.mem_cons_self l rest))
    rw [pyMapGet, hw,
      pyMapGet_eq_map scores rest fun l hl => h l (List.mem_cons_of_mem _ hl)]
    simp only [Option.bind_eq_bind, Option.some_bind, Option.pure_def,
      List.map_cons, hw, Option.getD_some]

/-- A successful comprehension has the length of its label list. -/
lemma pyMapGet_length (scores : List ℚ) :
    ∀ (labels : List ℤ) (lds : List ℚ),
      pyMapGet scores labels = some lds → lds.length = labels.length
  | [], lds, h => by
    rw [pyMapGet, Option.some_inj] at h
    simp [← h]
  | l :: rest, lds, h => by
    rw [pyMapGet] at h
    cases hw : npGet scores l with
    | none => rw [hw] at h; simp at h
    | some w =>
      rw [hw] at h
      simp only [Option.bind_eq_bind, Option.some_bind] at h
      cases hr : pyMapGet scores rest with
      | none => rw [hr] at h; simp at h
      | some r =>
        rw [hr] at h
        simp only [Option.some_bind, Option.pure_def, Option.some_inj] at h
        have := pyMapGet_length scores rest r hr
        simp [← h, this]

/-! ## Lemmas about the interpolation loop -/

/-- Closed form of the interpolation loop when every access along `idxs`
succeeds: the weighted coordinate sum and the weight sum over the listed
neighbourhood positions. -/
lemma sumLoop_eq (lds : List ℚ) (labels : List ℤ) (grid : List (ℚ × ℚ))
    (proj : ℚ × ℚ → ℚ) :
    ∀ (idxs : List ℕ) (s ss : ℚ),
      (∀ i ∈ idxs, i < lds.length ∧ i < labels.length ∧
        (npGet grid (labels.getD i 0)).isSome) →
      sumLoop lds labels grid proj idxs s ss =
        some (s + (idxs.map fun i =>
            lds.getD i 0 * proj ((npGet grid (labels.getD i 0)).getD (0, 0))).sum,
          ss + (idxs.map fun i => lds.getD i 0).sum)
  | [], s, ss, _ => by simp [sumLoop]
  | i :: rest, s, ss, h => by
    obtain ⟨hw, hlab, hgrid⟩ := h i (List.mem_cons_self i rest)
    obtain ⟨p, hp⟩ := Option.isSome_iff_exists.mp hgrid
    rw [sumLoop, npGet_nat_getD lds 0 i hw, npGet_nat_getD labels 0 i hlab]
    simp only [Option.bind_eq_bind, Option.some_bind]
    rw [hp]
    simp only [Option.some_bind]
    rw [sumLoop_eq lds labels grid proj rest _ _
        fun j hj => h j (List.mem_cons_of_mem _ hj)]
    simp only [List.map_cons, List.sum_cons, hp, Option.getD_some]
    refine congrArg some ?_
    rw [Prod.mk.injEq]
    exact ⟨by ring, by ring⟩

/-- The interpolation loop raises as soon as some listed position is beyond
the score list. -/
lemma sumLoop_none (lds : List ℚ) (labels : List ℤ) (grid : List (ℚ × ℚ))
    (proj : ℚ × ℚ → ℚ) :
    ∀ (idxs : List ℕ) (s ss : ℚ) (i : ℕ), i ∈ idxs → lds.length ≤ i →
      sumLoop lds labels grid proj idxs s ss = none
  | [], _, _, i, hi, _ => absurd hi (List.not_mem_nil i)
  | j :: rest, s, ss, i, hi, hlen => by
    rw [sumLoop]
    cases hw : npGet lds (j : ℤ) with
    | none => rfl
    | some w =>
      rcases List.mem_cons.mp hi with rfl | hmem
      · rw [npGet_nat_none lds i hlen] at hw
        exact absurd hw (Option.noConfusion)
      · simp only [Option.bind_eq_bind, Option.some_bind]
        cases hlab : npGet labels (j : ℤ) with
        | none => rfl
        | some lab =>
          simp only [Option.some_bind]
          cases hg : npGet grid lab with
          | none => rfl
          | some p =>
            simp only [Option.some_bind]
            exact sumLoop_none lds labels grid proj rest _ _ i hmem hlen

/-- Success closed form of `place_inner_vertex`: under the 8-neighbour
precondition (nine collected labels, the centre deleted positionally, every
surviving label a valid index into both arrays) the result is the pair of
score-weighted barycentres over the positions `[0,1,2,5,6,7]` (abscissa) and
`[0,3,5,2,4,7]` (ordinate) of the neighbourhood list. -/
lemma place_inner_vertex_success (scores : List ℚ) (grid : List (ℚ × ℚ))
    (ls : ℚ) (m : ℕ) (cm g1 : ℚ × ℚ) (L : List ℤ)
    (h1 : argmin scores = some m)
    (h2 : npGet grid (m : ℤ) = some cm)
    (h3 : npGet grid ((m : ℤ) + 1) = some g1)
    (h4 : (localLabels grid cm |cm.1 - g1.1|).length = 9)
    (hL : (localLabels grid cm |cm.1 - g1.1|).eraseIdx 4 = L)
    (h5 : ∀ l ∈ L, (npGet scores l).isSome ∧ (npGet grid l).isSome) :
    place_inner_vertex scores grid ls =
      some (((([0, 1, 2, 5, 6, 7] : List ℕ).map fun i =>
            nbrScore scores L i * (nbrPoint grid L i).1).sum) /
          ((([0, 1, 2, 5, 6, 7] : List ℕ).map fun i => nbrScore scores L i).sum),
        ((([0, 3, 5, 2, 4, 7] : List ℕ).map fun i =>
            nbrScore scores L i * (nbrPoint grid L i).2).sum) /
          ((([0, 3, 5, 2, 4, 7] : List ℕ).map fun i => nbrScore scores L i).sum)) := by
  have hLlen : L.length = 8 := by
    rw [← hL, List.length_eraseIdx_of_lt (by omega), h4]
  have hpy : pyDel (localLabels grid cm |cm.1 - g1.1|) 4 = some L := by
    rw [pyDel, if_pos (by omega), hL]
  have hlds : pyMapGet scores L =
      some (L.map fun l => (npGet scores l).getD 0) :=
    pyMapGet_eq_map scores L fun l hl => (h5 l hl).1
  have hldslen : (L.map fun l => (npGet scores l).getD 0).length = 8 := by
    simp [hLlen]
  have hsc : ∀ i : ℕ, i < 8 →
      (L.map fun l => (npGet scores l).getD 0).getD i 0 = nbrScore scores L i := by
    intro i hi
    rw [getD_map_lt _ L 0 0 i (by omega)]
    rfl
  have hacc : ∀ idxs : List ℕ, (∀ i ∈ idxs, i < 8) →
      ∀ i ∈ idxs, i < (L.map fun l => (npGet scores l).getD 0).length ∧
        i < L.length ∧ (npGet grid (L.getD i 0)).isSome := by
    intro idxs hb i hi
    have h8 := hb i hi
    exact ⟨by omega, by omega, (h5 (L.getD i 0) (getD_mem L 0 i (by omega))).2⟩
  have hbx : ∀ i ∈ ([0, 1, 2, 5, 6, 7] : List ℕ), i < 8 := by decide
  have hby : ∀ i ∈ ([0, 3, 5, 2, 4, 7] : List ℕ), i < 8 := by decide
  have hx := sumLoop_eq (L.map fun l => (npGet scores l).getD 0) L grid
    Prod.fst [0, 1, 2, 5, 6, 7] 0 0 (hacc _ hbx)
  have hy := sumLoop_eq (L.map fun l => (npGet scores l).getD 0) L grid
    Prod.snd [0, 3, 5, 2, 4, 7] 0 0 (hacc _ hby)
  have hmx : (([0, 1, 2, 5, 6, 7] : List ℕ).map fun i =>
      (L.map fun l => (npGet scores l).getD 0).getD i 0 *
        Prod.fst ((npGet grid (L.getD i 0)).getD (0, 0))) =
      ([0, 1, 2, 5, 6, 7] : List ℕ).map fun i =>
        nbrScore scores L i * (nbrPoint grid L i).1 :=
    List.map_congr_left fun i hi => by rw [hsc i (hbx i hi)]; rfl
  have hmy : (([0, 3, 5, 2, 4, 7] : List ℕ).map fun i =>
      (L.map fun l => (npGet scores l).getD 0).getD i 0 *
        Prod.snd ((npGet grid (L.getD i 0)).getD (0, 0))) =
      ([0, 3, 5, 2, 4, 7] : List ℕ).map fun i =>
        nbrScore scores L i * (nbrPoint grid L i).2 :=
    List.map_congr_left fun i hi => by rw [hsc i (hby i hi)]; rfl
  have hwx : (([0, 1, 2, 5, 6, 7] : List ℕ).map fun i =>
      (L.map fun l => (npGet scores l).getD 0).getD i 0) =
      ([0, 1, 2, 5, 6, 7] : List ℕ).map fun i => nbrScore scores L i :=
    List.map_congr_left fun i hi => hsc i (hbx i hi)
  have hwy : (([0, 3, 5, 2, 4, 7] : List ℕ).map fun i =>
      (L.map fun l => (npGet scores l).getD 0).getD i 0) =
      ([0, 3, 5, 2, 4, 7] : List ℕ).map fun i => nbrScore scores L i :=
    List.map_congr_left fun i hi => hsc i (hby i hi)
  rw [hmx, hwx] at hx
  rw [hmy, hwy] at hy
  simp only [place_inner_vertex]
  rw [h1]
  simp only [Option.bind_eq_bind, Option.some_bind]
  rw [h2]
  simp only [Option.some_bind]
  rw [h3]
  simp only [Option.some_bind]
  rw [hpy]
  simp only [Option.some_bind]
  rw [hlds]
  simp only [Option.some_bind]
  rw [hx]
  simp only [Option.some_bind]
  rw [hy]
  simp only [Option.some_bind, Option.pure_def, zero_add]

/-- The state-threading variant returns exactly the point of
`place_inner_vertex` paired with the untouched input arrays. -/
lemma place_inner_vertexS_eq (scores : List ℚ) (grid : List (ℚ × ℚ)) (ls : ℚ) :
    place_inner_vertexS scores grid ls =
      (place_inner_vertex scores grid ls).map fun p => (p, scores, grid) := by
  simp only [place_inner_vertexS, place_inner_vertex, Option.bind_eq_bind,
    Option.map_bind, Function.comp, Option.pure_def, Option.map_some']

/-- Concrete evaluation: on the 3×3 lattice `grid9` with scores `scores9`
the recoverer succeeds with the off-lattice point `(8/7, 8/7)` (for any `ls`,
which the source body never reads). -/
lemma place_eval9 (ls : ℚ) :
    place_inner_vertex scores9 grid9 ls = some (8 / 7, 8 / 7) := by
  rw [place_inner_vertex_success scores9 grid9 ls 4 (1, 1) (2, 1)
    [0, 1, 2, 3, 5, 6, 7, 8]
    (by decide) (by decide) (by decide)
    (by norm_num [localLabels, grid9, List.range_succ])
    (by norm_num [localLabels, grid9, List.range_succ])
    (by decide)]
  simp only [List.map_cons, List.map_nil, List.sum_cons, List.sum_nil,
    show nbrScore scores9 [0, 1, 2, 3, 5, 6, 7, 8] 0 = 1 from by decide,
    show nbrScore scores9 [0, 1, 2, 3, 5, 6, 7, 8] 1 = 1 from by decide,
    show nbrScore scores9 [0, 1, 2, 3, 5, 6, 7, 8] 2 = 1 from by decide,
    show nbrScore scores9 [0, 1, 2, 3, 5, 6, 7, 8] 3 = 1 from by decide,
    show nbrScore scores9 [0, 1, 2, 3, 5, 6, 7, 8] 4 = 1 from by decide,
    show nbrScore scores9 [0, 1, 2, 3, 5, 6, 7, 8] 5 = 1 from by decide,
    show nbrScore scores9 [0, 1, 2, 3, 5, 6, 7, 8] 6 = 1 from by decide,
    show nbrScore scores9 [0, 1, 2, 3, 5, 6, 7, 8] 7 = 2 from by decide,
    show nbrPoint grid9 [0, 1, 2, 3, 5, 6, 7, 8] 0 = (0, 0) from by decide,
    show nbrPoint grid9 [0, 1, 2, 3, 5, 6, 7, 8] 1 = (1, 0) from by decide,
    show nbrPoint grid9 [0, 1, 2, 3, 5, 6, 7, 8] 2 = (2, 0) from by decide,
    show nbrPoint grid9 [0, 1, 2, 3, 5, 6, 7, 8] 3 = (0, 1) from by decide,
    show nbrPoint grid9 [0, 1, 2, 3, 5, 6, 7, 8] 4 = (2, 1) from by decide,
    show nbrPoint grid9 [0, 1, 2, 3, 5, 6, 7, 8] 5 = (0, 2) from by decide,
    show nbrPoint grid9 [0, 1, 2, 3, 5, 6, 7, 8] 6 = (1, 2) from by decide,
    show nbrPoint grid9 [0, 1, 2, 3, 5, 6, 7, 8] 7 = (2, 2) from by decide]
  norm_num

/-- Concrete evaluation: on the 4×4 lattice `grid16` with the score minimum
at index 8 — a point of the left boundary column — the recoverer still
succeeds, returning `(4/3, 3/2)` built from a misidentified neighbourhood. -/
lemma place_eval16 (ls : ℚ) :
    place_inner_vertex scores16 grid16 ls = some (4 / 3, 3 / 2) := by
  rw [place_inner_vertex_success scores16 grid16 ls 8 (0, 2) (1, 2)
    [3, 4, 5, 7, 9, 11, 12, 13]
    (by decide) (by decide) (by decide)
    (by norm_num [localLabels, grid16, List.range_succ])
    (by norm_num [localLabels, grid16, List.range_succ])
    (by decide)]
  simp only [List.map_cons, List.map_nil, List.sum_cons, List.sum_nil,
    show nbrScore scores16 [3, 4, 5, 7, 9, 11, 12, 13] 0 = 1 from by decide,
    show nbrScore scores16 [3, 4, 5, 7, 9, 11, 12, 13] 1 = 1 from by decide,
    show nbrScore scores16 [3, 4, 5, 7, 9, 11, 12, 13] 2 = 1 from by decide,
    show nbrScore scores16 [3, 4, 5, 7, 9, 11, 12, 13] 3 = 1 from by decide,
    show nbrScore scores16 [3, 4, 5, 7, 9, 11, 12, 13] 4 = 1 from by decide,
    show nbrScore scores16 [3, 4, 5, 7, 9, 11, 12, 13] 5 = 1 from by decide,
    show nbrScore scores16 [3, 4, 5, 7, 9, 11, 12, 13] 6 = 1 from by decide,
    show nbrScore scores16 [3, 4, 5, 7, 9, 11, 12, 13] 7 = 1 from by decide,
    show nbrPoint grid16 [3, 4, 5, 7, 9, 11, 12, 13] 0 = (3, 0) from by decide,
    show nbrPoint grid16 [3, 4, 5, 7, 9, 11, 12, 13] 1 = (0, 1) from by decide,
    show nbrPoint grid16 [3, 4, 5, 7, 9, 11, 12, 13] 2 = (1, 1) from by decide,
    show nbrPoint grid16 [3, 4, 5, 7, 9, 11, 12, 13] 3 = (3, 1) from by decide,
    show nbrPoint grid16 [3, 4, 5, 7, 9, 11, 12, 13] 4 = (1, 2) from by decide,
    show nbrPoint grid16 [3, 4, 5, 7, 9, 11, 12, 13] 5 = (3, 2) from by decide,
    show nbrPoint grid16 [3, 4, 5, 7, 9, 11, 12, 13] 6 = (0, 3) from by decide,
    show nbrPoint grid16 [3, 4, 5, 7, 9, 11, 12, 13] 7 = (1, 3) from by decide]
  norm_num

/-- With the tiny exclusion radius `0.1 * (1/1000)`, pruning `grid9` around
the recovered point `(8/7, 8/7)` removes nothing. -/
lemma remove_points_eval9 :
    (remove_points_grid (1 / 1000) (8 / 7, 8 / 7) grid9 scores9).1 = grid9 ∧
    (remove_points_grid (1 / 1000) (8 / 7, 8 / 7) grid9 scores9).2 = scores9 := by
  obtain ⟨h1, h2⟩ :=
    remove_points_grid_eq (1 / 1000) (8 / 7, 8 / 7) grid9 scores9 (by decide)
  constructor
  · rw [h1]
    norm_num [grid9, closeTo, List.filter]
  · rw [h2]
    norm_num [grid9, scores9, closeTo, List.filter, List.zip]

/-- The recovery loop produces exactly as many points as requested whenever
it succeeds, regardless of the intermediate array states. -/
lemma compute_vertices_length (ls : ℚ) (contour : List (ℚ × ℚ)) :
    ∀ (n : ℕ) (grid : List (ℚ × ℚ)) (scores : List ℚ) (out : List (ℚ × ℚ)),
      compute_vertices ls contour grid scores n = some out → out.length = n
  | 0, grid, scores, out, h => by
    rw [compute_vertices, Option.some_inj] at h
    simp [← h]
  | n + 1, grid, scores, out, h => by
    rw [compute_vertices] at h
    cases hp : place_inner_vertex scores grid ls with
    | none => rw [hp] at h; simp at h
    | some p =>
      rw [hp] at h
      simp only [Option.bind_eq_bind, Option.some_bind] at h
      cases hr : compute_vertices ls contour
          (remove_points_grid ls p grid scores).1
          (remove_points_grid ls p grid scores).2 n with
      | none => rw [hr] at h; simp at h
      | some rest =>
        rw [hr] at h
        simp only [Option.some_bind, Option.pure_def, Option.some_inj] at h
        have := compute_vertices_length ls contour n _ _ rest hr
        simp [← h, this]

/-! ## Claim C1 -/

/-- C1: for every grid/scores pair satisfying the 8-neighbour precondition —
a first score minimum at `m`, both `grid[m]` and `grid[m+1]` readable, a
scan collecting exactly nine labels whose centre is deleted positionally,
and every surviving label a valid index of both arrays — the recoverer
returns `(xbar, ybar)` where `xbar` is the raw-score-weighted average of the
x-coordinates of the neighbourhood entries at list positions
`{0,1,2,5,6,7}` and `ybar` the raw-score-weighted average of the
y-coordinates at positions `{0,3,5,2,4,7}`. -/
theorem place_inner_vertex_weighted_average (scores : List ℚ)
    (grid : List (ℚ × ℚ)) (ls : ℚ) (m : ℕ) (cm g1 : ℚ × ℚ) (L : List ℤ)
    (h1 : argmin scores = some m)
    (h2 : npGet grid (m : ℤ) = some cm)
    (h3 : npGet grid ((m : ℤ) + 1) = some g1)
    (h4 : (localLabels grid cm |cm.1 - g1.1|).length = 9)
    (hL : (localLabels grid cm |cm.1 - g1.1|).eraseIdx 4 = L)
    (h5 : ∀ l ∈ L, (npGet scores l).isSome ∧ (npGet grid l).isSome) :
    place_inner_vertex scores grid ls =
      some (((([0, 1, 2, 5, 6, 7] : List ℕ).map fun i =>
            nbrScore scores L i * (nbrPoint grid L i).1).sum) /
          ((([0, 1, 2, 5, 6, 7] : List ℕ).map fun i => nbrScore scores L i).sum),
        ((([0, 3, 5, 2, 4, 7] : List ℕ).map fun i =>
            nbrScore scores L i * (nbrPoint grid L i).2).sum) /
          ((([0, 3, 5, 2, 4, 7] : List ℕ).map fun i => nbrScore scores L i).sum)) :=
  place_inner_vertex_success scores grid ls m cm g1 L h1 h2 h3 h4 hL h5

/-- Witness for C1 on the 3×3 lattice `grid9`. -/
theorem place_inner_vertex_weighted_average_witness :
    argmin scores9 = some 4 ∧
    npGet grid9 ((4 : ℕ) : ℤ) = some (1, 1) ∧
    npGet grid9 (((4 : ℕ) : ℤ) + 1) = some (2, 1) ∧
    (localLabels grid9 (1, 1) |(1 : ℚ) - 2|).length = 9 ∧
    (localLabels grid9 (1, 1) |(1 : ℚ) - 2|).eraseIdx 4 =
      [0, 1, 2, 3, 5, 6, 7, 8] ∧
    (∀ l ∈ ([0, 1, 2, 3, 5, 6, 7, 8] : List ℤ),
      (npGet scores9 l).isSome ∧ (npGet grid9 l).isSome) ∧
    place_inner_vertex scores9 grid9 1 =
      some (((([0, 1, 2, 5, 6, 7] : List ℕ).map fun i =>
            nbrScore scores9 [0, 1, 2, 3, 5, 6, 7, 8] i *
              (nbrPoint grid9 [0, 1, 2, 3, 5, 6, 7, 8] i).1).sum) /
          ((([0, 1, 2, 5, 6, 7] : List ℕ).map fun i =>
            nbrScore scores9 [0, 1, 2, 3, 5, 6, 7, 8] i).sum),
        ((([0, 3, 5, 2, 4, 7] : List ℕ).map fun i =>
            nbrScore scores9 [0, 1, 2, 3, 5, 6, 7, 8] i *
              (nbrPoint grid9 [0, 1, 2, 3, 5, 6, 7, 8] i).2).sum) /
          ((([0, 3, 5, 2, 4, 7] : List ℕ).map fun i =>
            nbrScore scores9 [0, 1, 2, 3, 5, 6, 7, 8] i).sum)) := by
  have e1 : argmin scores9 = some 4 := by decide
  have e2 : npGet grid9 ((4 : ℕ) : ℤ) = some (1, 1) := by decide
  have e3 : npGet grid9 (((4 : ℕ) : ℤ) + 1) = some (2, 1) := by decide
  have e4 : (localLabels grid9 (1, 1) |(1 : ℚ) - 2|).length = 9 := by
    norm_num [localLabels, grid9, List.range_succ]
  have e5 : (localLabels grid9 (1, 1) |(1 : ℚ) - 2|).eraseIdx 4 =
      [0, 1, 2, 3, 5, 6, 7, 8] := by
    norm_num [localLabels, grid9, List.range_succ]
  have e6 : ∀ l ∈ ([0, 1, 2, 3, 5, 6, 7, 8] : List ℤ),
      (npGet scores9 l).isSome ∧ (npGet grid9 l).isSome := by decide
  exact ⟨e1, e2, e3, e4, e5, e6,
    place_inner_vertex_weighted_average scores9 grid9 1 4 (1, 1) (2, 1)
      [0, 1, 2, 3, 5, 6, 7, 8] e1 e2 e3 e4 e5 e6⟩

/-! ## Claim C7 -/

/-- C7 is refuted: on `grid16` the score minimum (index 8) sits on the left
boundary column of the lattice (no grid point lies to its left), where a
true 3×3 neighbourhood cannot be formed, yet `place_inner_vertex` raises no
error — it silently returns a point built from wrapped-around labels. -/
theorem place_inner_vertex_boundary_column_no_error :
    argmin scores16 = some 8 ∧
    npGet grid16 ((8 : ℕ) : ℤ) = some (0, 2) ∧
    (∀ p ∈ grid16, (0 : ℚ) ≤ p.1) ∧
    (place_inner_vertex scores16 grid16 1).isSome = true := by
  refine ⟨by decide, by decide, by decide, ?_⟩
  rw [place_eval16 1]
  rfl

/-- C7 (amended): the recoverer does surface an error when the neighbourhood
scan is thin — at most two matching column entries, i.e. at most six
collected labels, as happens on the top or bottom boundary row — by raising
`IndexError` in the centre deletion or the weighting loop; but a minimum on
a left/right boundary column whose wrapped labels stay in range silently
yields a guessed point instead. -/
theorem place_inner_vertex_thin_scan_error (scores : List ℚ)
    (grid : List (ℚ × ℚ)) (ls : ℚ) (m : ℕ) (cm g1 : ℚ × ℚ)
    (h1 : argmin scores = some m)
    (h2 : npGet grid (m : ℤ) = some cm)
    (h3 : npGet grid ((m : ℤ) + 1) = some g1)
    (h4 : (localLabels grid cm |cm.1 - g1.1|).length ≤ 6) :
    place_inner_vertex scores grid ls = none := by
  simp only [place_inner_vertex]
  rw [h1]
  simp only [Option.bind_eq_bind, Option.some_bind]
  rw [h2]
  simp only [Option.some_bind]
  rw [h3]
  simp only [Option.some_bind]
  by_cases h5 : (localLabels grid cm |cm.1 - g1.1|).length < 5
  · rw [pyDel, if_neg (by omega)]
    rfl
  · rw [pyDel, if_pos (by omega)]
    simp only [Option.some_bind]
    cases hmap : pyMapGet scores
        ((localLabels grid cm |cm.1 - g1.1|).eraseIdx 4) with
    | none => rfl
    | some lds =>
      simp only [Option.some_bind]
      have hlen : lds.length ≤ 5 := by
        rw [pyMapGet_length scores _ lds hmap,
          List.length_eraseIdx_of_lt (by omega)]
        omega
      rw [sumLoop_none lds _ grid Prod.fst [0, 1, 2, 5, 6, 7] 0 0 5
        (by decide) hlen]
      rfl

/-- Witness for C7 (amended) on a two-point grid whose minimum collects only
one column match (three labels). -/
theorem place_inner_vertex_thin_scan_error_witness :
    argmin [0, 1] = some 0 ∧
    npGet [((0 : ℚ), (0 : ℚ)), (1, 0)] ((0 : ℕ) : ℤ) = some (0, 0) ∧
    npGet [((0 : ℚ), (0 : ℚ)), (1, 0)] (((0 : ℕ) : ℤ) + 1) = some (1, 0) ∧
    (localLabels [((0 : ℚ), (0 : ℚ)), (1, 0)] (0, 0) |(0 : ℚ) - 1|).length ≤ 6 ∧
    place_inner_vertex [0, 1] [((0 : ℚ), (0 : ℚ)), (1, 0)] 1 = none := by
  have e1 : argmin [0, 1] = some 0 := by decide
  have e2 : npGet [((0 : ℚ), (0 : ℚ)), (1, 0)] ((0 : ℕ) : ℤ) = some (0, 0) := by
    decide
  have e3 : npGet [((0 : ℚ), (0 : ℚ)), (1, 0)] (((0 : ℕ) : ℤ) + 1) =
      some (1, 0) := by decide
  have e4 : (localLabels [((0 : ℚ), (0 : ℚ)), (1, 0)] (0, 0)
      |(0 : ℚ) - 1|).length ≤ 6 := by
    norm_num [localLabels, List.range_succ]
  exact ⟨e1, e2, e3, e4,
    place_inner_vertex_thin_scan_error [0, 1] [((0 : ℚ), (0 : ℚ)), (1, 0)] 1 0
      (0, 0) (1, 0) e1 e2 e3 e4⟩

/-! ## Claim C8 -/

/-- C8: pruning removes exactly the grid indices strictly within Euclidean
radius `0.1 * ls` of the recovered vertex, deletes the same index set from
the parallel score array, and preserves the relative order of the
survivors. -/
theorem remove_points_grid_lockstep (ls : ℚ) (vert : ℚ × ℚ)
    (grid : List (ℚ × ℚ)) (scores : List ℚ)
    (h : scores.length = grid.length) :
    (remove_points_grid ls vert grid scores).1 =
      grid.filter (fun p => !closeTo ls vert p) ∧
    (remove_points_grid ls vert grid scores).2 =
      ((grid.zip scores).filter (fun q => !closeTo ls vert q.1)).map Prod.snd :=
  remove_points_grid_eq ls vert grid scores h

/-- Witness for C8 on a two-point grid with `ls = 1`, one point inside the
exclusion ball and one outside. -/
theorem remove_points_grid_lockstep_witness :
    ([(1 : ℚ), 2].length = [((0 : ℚ), (0 : ℚ)), (5, 5)].length) ∧
    ((remove_points_grid 1 (0, 0) [((0 : ℚ), (0 : ℚ)), (5, 5)] [1, 2]).1 =
      [((0 : ℚ), (0 : ℚ)), (5, 5)].filter (fun p => !closeTo 1 (0, 0) p) ∧
    (remove_points_grid 1 (0, 0) [((0 : ℚ), (0 : ℚ)), (5, 5)] [1, 2]).2 =
      (([((0 : ℚ), (0 : ℚ)), (5, 5)].zip [(1 : ℚ), 2]).filter
        (fun q => !closeTo 1 (0, 0) q.1)).map Prod.snd) :=
  ⟨by decide, remove_points_grid_lockstep 1 (0, 0) [((0 : ℚ), (0 : ℚ)), (5, 5)]
    [1, 2] (by decide)⟩

/-! ## Claim C2 -/

/-- C2 is refuted on the "strictly shrink" conjunct: with `ls = 1/1000` the
single iteration over `grid9`/`scores9` succeeds, returning `(8/7, 8/7)`,
yet the exclusion ball of radius `0.1 * ls` contains no grid point, so both
arrays keep all nine entries instead of strictly shrinking (and no failure
is raised). -/
theorem compute_vertices_no_shrink :
    grid9.length = 9 ∧ scores9.length = 9 ∧
    compute_vertices (1 / 1000) [] grid9 scores9 1 = some [(8 / 7, 8 / 7)] ∧
    (remove_points_grid (1 / 1000) (8 / 7, 8 / 7) grid9 scores9).1.length = 9 ∧
    (remove_points_grid (1 / 1000) (8 / 7, 8 / 7) grid9 scores9).2.length = 9 := by
  obtain ⟨hr1, hr2⟩ := remove_points_eval9
  refine ⟨by decide, by decide, ?_, by rw [hr1]; decide, by rw [hr2]; decide⟩
  rw [show (1 : ℕ) = 0 + 1 from rfl, compute_vertices, place_eval9]
  rfl

/-- C2 (amended): with parallel input arrays, every successful run of the
loop returns exactly `count` points; each pruning step keeps the two arrays
of equal length and never grows the grid (strict shrinking holds only when
the exclusion ball catches a grid point); and a failing recovery inside the
loop propagates as failure of the whole call. -/
theorem compute_vertices_invariant (ls : ℚ) (contour grid : List (ℚ × ℚ))
    (scores : List ℚ) (n : ℕ) (h : scores.length = grid.length) :
    (∀ out, compute_vertices ls contour grid scores n = some out →
      out.length = n) ∧
    (∀ p : ℚ × ℚ,
      ((remove_points_grid ls p grid scores).2).length =
        ((remove_points_grid ls p grid scores).1).length ∧
      ((remove_points_grid ls p grid scores).1).length ≤ grid.length) ∧
    (n ≠ 0 → place_inner_vertex scores grid ls = none →
      compute_vertices ls contour grid scores n = none) := by
  refine ⟨fun out => compute_vertices_length ls contour n grid scores out,
    fun p => ?_, ?_⟩
  · obtain ⟨h1, h2⟩ := remove_points_grid_eq ls p grid scores h
    constructor
    · rw [h1, h2, List.length_map]
      exact length_filter_zip_fst (fun x => !closeTo ls p x) grid scores h
    · rw [h1]
      exact List.length_filter_le _ grid
  · intro hn hnone
    cases n with
    | zero => exact absurd rfl hn
    | succ k =>
      rw [compute_vertices, hnone]
      rfl

/-- Witness for C2 (amended) at one requested point over `grid9`. -/
theorem compute_vertices_invariant_witness :
    scores9.length = grid9.length ∧
    ((∀ out, compute_vertices 1 [] grid9 scores9 1 = some out →
      out.length = 1) ∧
    (∀ p : ℚ × ℚ,
      ((remove_points_grid 1 p grid9 scores9).2).length =
        ((remove_points_grid 1 p grid9 scores9).1).length ∧
      ((remove_points_grid 1 p grid9 scores9).1).length ≤ grid9.length) ∧
    (1 ≠ 0 → place_inner_vertex scores9 grid9 1 = none →
      compute_vertices 1 [] grid9 scores9 1 = none)) :=
  ⟨by decide, compute_vertices_invariant 1 [] grid9 scores9 1 (by decide)⟩

/-! ## Claim C9 -/

/-- C9: the recoverer is pure over its inputs — in the state-threading
embedding, a successful run returns the score and grid arrays unchanged,
and its point agrees with the plain function. -/
theorem place_inner_vertexS_frame (scores : List ℚ) (grid : List (ℚ × ℚ))
    (ls : ℚ) (p : ℚ × ℚ) (s2 : List ℚ) (g2 : List (ℚ × ℚ))
    (h : place_inner_vertexS scores grid ls = some (p, s2, g2)) :
    s2 = scores ∧ g2 = grid ∧ place_inner_vertex scores grid ls = some p := by
  rw [place_inner_vertexS_eq] at h
  cases hp : place_inner_vertex scores grid ls with
  | none => rw [hp] at h; simp at h
  | some q =>
    rw [hp] at h
    simp only [Option.map_some', Option.some_inj, Prod.mk.injEq] at h
    obtain ⟨hq, hs, hg⟩ := h
    exact ⟨hs.symm, hg.symm, congrArg some hq⟩

/-- Witness for C9 on `grid9`. -/
theorem place_inner_vertexS_frame_witness :
    place_inner_vertexS scores9 grid9 1 =
      some ((8 / 7, 8 / 7), scores9, grid9) ∧
    (scores9 = scores9 ∧ grid9 = grid9 ∧
      place_inner_vertex scores9 grid9 1 = some (8 / 7, 8 / 7)) := by
  have h : place_inner_vertexS scores9 grid9 1 =
      some ((8 / 7, 8 / 7), scores9, grid9) := by
    rw [place_inner_vertexS_eq, place_eval9]
    rfl
  exact ⟨h, place_inner_vertexS_frame scores9 grid9 1 (8 / 7, 8 / 7)
    scores9 grid9 h⟩

/-! ## Claim C10 -/

/-- C10: on parallel non-empty arrays whose score minimum sits at the last
index, the spacing inference reads `grid[m+1]` one past the end and the call
raises `IndexError` (returns no point); for a minimum anywhere else that
read is in bounds. -/
theorem place_inner_vertex_last_index (scores : List ℚ)
    (grid : List (ℚ × ℚ)) (ls : ℚ) (m : ℕ)
    (hlen : scores.length = grid.length) (hm : argmin scores = some m) :
    (m = grid.length - 1 → place_inner_vertex scores grid ls = none) ∧
    (m ≠ grid.length - 1 →
      (m : ℤ) + 1 < (grid.length : ℤ) ∧ (npGet grid ((m : ℤ) + 1)).isSome) := by
  have hmlt : m < scores.length := argmin_lt_length scores m hm
  constructor
  · intro hlast
    have hglen : 0 < grid.length := by omega
    have h2 : npGet grid (m : ℤ) = some (grid.getD m (0, 0)) :=
      npGet_nat_getD grid (0, 0) m (by omega)
    have h3 : npGet grid ((m : ℤ) + 1) = none := by
      rw [show (m : ℤ) + 1 = ((m + 1 : ℕ) : ℤ) by push_cast; ring,
        npGet_nat_none grid (m + 1) (by omega)]
    simp only [place_inner_vertex]
    rw [hm]
    simp only [Option.bind_eq_bind, Option.some_bind]
    rw [h2]
    simp only [Option.some_bind]
    rw [h3]
    rfl
  · intro hne
    have hlt : m + 1 < grid.length := by omega
    constructor
    · exact_mod_cast hlt
    · rw [show (m : ℤ) + 1 = ((m + 1 : ℕ) : ℤ) by push_cast; ring,
        npGet_nat_getD grid (0, 0) (m + 1) hlt]
      rfl

/-- Witness for C10 on a two-point grid whose minimum is the last index. -/
theorem place_inner_vertex_last_index_witness :
    ([(1 : ℚ), 0].length = [((0 : ℚ), (0 : ℚ)), (1, 0)].length) ∧
    argmin [1, 0] = some 1 ∧
    ((1 = [((0 : ℚ), (0 : ℚ)), (1, 0)].length - 1 →
      place_inner_vertex [1, 0] [((0 : ℚ), (0 : ℚ)), (1, 0)] 1 = none) ∧
    (1 ≠ [((0 : ℚ), (0 : ℚ)), (1, 0)].length - 1 →
      ((1 : ℕ) : ℤ) + 1 < ([((0 : ℚ), (0 : ℚ)), (1, 0)].length : ℤ) ∧
      (npGet [((0 : ℚ), (0 : ℚ)), (1, 0)] (((1 : ℕ) : ℤ) + 1)).isSome)) :=
  ⟨by decide, by decide,
    place_inner_vertex_last_index [1, 0] [((0 : ℚ), (0 : ℚ)), (1, 0)] 1 1
      (by decide) (by decide)⟩

end DatabaseGen
